import Mathlib

/-!
Shallow embedding of the `java-ast` emission engine.

`JavaAst.Writer` below is translated from
`src/libs/java-ast/src/lib/core/Writer.ts`: its state is the buffer, the
indentation level, the two registries (explicit imports and type references,
both JS `Set`s of strings, i.e. insertion-ordered duplicate-free lists), the
target package name and the package-suppression flag.  All operations are
modelled as state-passing functions.  JavaScript strings are modelled as Lean
`String`; the default `Array.prototype.sort()` comparator (lexicographic by
code unit) is modelled by a boolean lexicographic order on character lists.
-/

namespace JavaAst

/-- Lexicographic strict order on character lists, code point by code point:
a proper prefix is smaller, mirroring how JavaScript compares strings. -/
def lexLt : List Char → List Char → Bool
  | _, [] => false
  | [], _ :: _ => true
  | a :: as, b :: bs => if a < b then true else if a = b then lexLt as bs else false

/-- Strict lexicographic order on strings (the order of JS string comparison). -/
def strLt (s t : String) : Bool := lexLt s.data t.data

/-- Reflexive lexicographic order on strings: `s ≤ t` iff not `t < s`. -/
def strLe (s t : String) : Bool := !(strLt t s)

theorem lexLt_cons_self (c : Char) (as bs : List Char) :
    lexLt (c :: as) (c :: bs) = lexLt as bs := by
  simp [lexLt]

theorem lexLt_cons_lt {a b : Char} (h : a < b) (as bs : List Char) :
    lexLt (a :: as) (b :: bs) = true := by
  simp [lexLt, h]

theorem lexLt_cons_gt {a b : Char} (h : b < a) (as bs : List Char) :
    lexLt (a :: as) (b :: bs) = false := by
  simp [lexLt, asymm h, h.ne']

theorem lexLt_asymm : ∀ {a b : List Char}, lexLt a b = true → lexLt b a = false
  | [], [], h => by simp [lexLt] at h
  | [], _ :: _, _ => rfl
  | _ :: _, [], h => by simp [lexLt] at h
  | x :: xs, y :: ys, h => by
    rcases lt_trichotomy x y with h1 | h1 | h1
    · exact lexLt_cons_gt h1 ys xs
    · subst h1
      rw [lexLt_cons_self] at h ⊢
      exact lexLt_asymm h
    · rw [lexLt_cons_gt h1] at h
      exact absurd h (by simp)

theorem lexLt_trans : ∀ {a b c : List Char},
    lexLt a b = true → lexLt b c = true → lexLt a c = true
  | _, _, [], _, h2 => by simp [lexLt] at h2
  | _, [], _ :: _, h1, _ => by simp [lexLt] at h1
  | [], _ :: _, _ :: _, _, _ => rfl
  | x :: xs, y :: ys, z :: zs, h1, h2 => by
    rcases lt_trichotomy x y with h1' | h1' | h1'
    · rcases lt_trichotomy y z with h2' | h2' | h2'
      · exact lexLt_cons_lt (lt_trans h1' h2') xs zs
      · subst h2'
        exact lexLt_cons_lt h1' xs zs
      · rw [lexLt_cons_gt h2'] at h2
        exact absurd h2 (by simp)
    · subst h1'
      rw [lexLt_cons_self] at h1
      rcases lt_trichotomy x z with h2' | h2' | h2'
      · exact lexLt_cons_lt h2' xs zs
      · subst h2'
        rw [lexLt_cons_self] at h2 ⊢
        exact lexLt_trans h1 h2
      · rw [lexLt_cons_gt h2'] at h2
        exact absurd h2 (by simp)
    · rw [lexLt_cons_gt h1'] at h1
      exact absurd h1 (by simp)

theorem lexLt_eq_of_not_lt : ∀ {a b : List Char},
    lexLt a b = false → lexLt b a = false → a = b
  | [], [], _, _ => rfl
  | [], _ :: _, h1, _ => by simp [lexLt] at h1
  | _ :: _, [], _, h2 => by simp [lexLt] at h2
  | x :: xs, y :: ys, h1, h2 => by
    rcases lt_trichotomy x y with h' | h' | h'
    · rw [lexLt_cons_lt h'] at h1
      exact absurd h1 (by simp)
    · subst h'
      rw [lexLt_cons_self] at h1 h2
      exact congrArg (x :: ·) (lexLt_eq_of_not_lt h1 h2)
    · rw [lexLt_cons_lt h'] at h2
      exact absurd h2 (by simp)

theorem strLe_trans {a b c : String} (h1 : strLe a b = true) (h2 : strLe b c = true) :
    strLe a c = true := by
  simp only [strLe, strLt, Bool.not_eq_true'] at h1 h2 ⊢
  cases hv : lexLt c.data a.data with
  | false => rfl
  | true =>
    exfalso
    by_cases hcb : lexLt c.data b.data = true
    · rw [h2] at hcb
      exact absurd hcb (by simp)
    · have hcb' : lexLt c.data b.data = false := by simpa using hcb
      by_cases hbc : lexLt b.data c.data = true
      · have := lexLt_trans hbc hv
        rw [h1] at this
        exact absurd this (by simp)
      · have hbc' : lexLt b.data c.data = false := by simpa using hbc
        have hEq : c.data = b.data := lexLt_eq_of_not_lt hcb' hbc'
        rw [hEq] at hv
        rw [h1] at hv
        exact absurd hv (by simp)

theorem strLe_total (a b : String) : strLe a b = true ∨ strLe b a = true := by
  simp only [strLe, strLt, Bool.not_eq_true']
  cases hv : lexLt b.data a.data
  · exact Or.inl rfl
  · exact Or.inr (lexLt_asymm hv)

theorem strLt_of_strLe_of_ne {a b : String} (h : strLe a b = true) (hne : a ≠ b) :
    strLt a b = true := by
  simp only [strLe, strLt, Bool.not_eq_true'] at h ⊢
  cases hv : lexLt a.data b.data with
  | true => rfl
  | false => exact absurd (String.ext (lexLt_eq_of_not_lt hv h)) hne

/-- Splitting a string at every newline character, mirroring JS
`str.split("\n")` (used by the class emitter for javadoc text). -/
def splitCharsNl : List Char → List (List Char)
  | [] => [[]]
  | c :: cs =>
    if c = '\n' then [] :: splitCharsNl cs
    else
      match splitCharsNl cs with
      | [] => [[c]]
      | l :: ls => (c :: l) :: ls

/-- `splitNl s` is the list of lines of `s`, JS `s.split("\n")`. -/
def splitNl (s : String) : List String := (splitCharsNl s.data).map String.mk

/-- `repeatStr s n` is JS `s.repeat(n)`. -/
def repeatStr (s : String) (n : Nat) : String := String.join (List.replicate n s)

/-- The indentation prefix for nesting depth `i`: `"    ".repeat(i)`
(the depth is kept as an integer; it never goes negative, see the
indent-floor theorem, so truncation at zero is unreachable). -/
def indentation (i : Int) : String := repeatStr "    " i.toNat

/-- Translated from the use of `ClassReference` in
`src/libs/java-ast/src/lib/core/Writer.ts` and `Class.write`: a type
reference is a `(name, packageName)` pair compared by value. -/
structure ClassReference where
  name : String
  packageName : String
deriving DecidableEq, Repr

/-- Insertion into a JS `Set` of strings, viewed as its insertion-ordered
duplicate-free element list: adding an element already present is a no-op,
otherwise it is appended. -/
def setAdd (l : List String) (x : String) : List String :=
  if x ∈ l then l else l ++ [x]

/-- `new Set([...])` applied to a list: deduplication keeping first
occurrences, in order. -/
def dedupKeepFirst (l : List String) : List String := l.foldl setAdd []

/-- JS `Array.prototype.sort()` on an array of strings: sorting by the default
(lexicographic) comparator. -/
def sortStrings (l : List String) : List String :=
  List.insertionSort (fun a b => strLe a b = true) l

/-- The `Writer` state, translated from
`src/libs/java-ast/src/lib/core/Writer.ts` (fields in source order). -/
structure Writer where
  indentLevel : Int
  buffer : String
  imports : List String
  references : List String
  packageName : String
  skipPackageDeclaration : Bool
deriving DecidableEq, Repr

/-- The `Writer` constructor: `new Writer({ packageName, skipPackageDeclaration })`
with the flag defaulting to `false`. -/
def Writer.create (packageName : String) (skipPackageDeclaration : Bool) : Writer :=
  { indentLevel := 0
    buffer := ""
    imports := []
    references := []
    packageName := packageName
    skipPackageDeclaration := skipPackageDeclaration }

/-- `Writer.indent()`. -/
def Writer.indent (w : Writer) : Writer := { w with indentLevel := w.indentLevel + 1 }

/-- `Writer.dedent()`: decrement only when the level is positive. -/
def Writer.dedent (w : Writer) : Writer :=
  if w.indentLevel > 0 then { w with indentLevel := w.indentLevel - 1 } else w

/-- `Writer.getIndentation()`. -/
def Writer.getIndentation (w : Writer) : String := indentation w.indentLevel

/-- `Writer.write(text)`: append verbatim. -/
def Writer.write (w : Writer) (text : String) : Writer :=
  { w with buffer := w.buffer ++ text }

/-- `Writer.writeLine(text?)`: when text is given, append the indentation
prefix and the text; in every case append a newline. -/
def Writer.writeLine (w : Writer) (text : Option String) : Writer :=
  let w' :=
    match text with
    | some t => { w with buffer := w.buffer ++ (w.getIndentation ++ t) }
    | none => w
  { w' with buffer := w'.buffer ++ "\n" }

/-- `Writer.newLine()`. -/
def Writer.newLine (w : Writer) : Writer := { w with buffer := w.buffer ++ "\n" }

/-- `Writer.writeNewLineIfLastLineNot()`: append a newline only when the buffer
is non-empty and its last character is not already a newline. -/
def Writer.writeNewLineIfLastLineNot (w : Writer) : Writer :=
  if 0 < w.buffer.length ∧ w.buffer.data.getLast? ≠ some '\n' then
    { w with buffer := w.buffer ++ "\n" }
  else w

/-- `Writer.addReference(reference)`: same-package references are discarded,
others are inserted as `"<package>.<name>"` into the reference set. -/
def Writer.addReference (w : Writer) (reference : ClassReference) : Writer :=
  if reference.packageName = w.packageName then w
  else { w with references := setAdd w.references (reference.packageName ++ "." ++ reference.name) }

/-- `Writer.addImport(importName)`. -/
def Writer.addImport (w : Writer) (importName : String) : Writer :=
  { w with imports := setAdd w.imports importName }

/-- The merged import set of `Writer.toString()`:
`[...new Set([...this.imports, ...this.references])]`. -/
def Writer.allImports (w : Writer) : List String := dedupKeepFirst (w.imports ++ w.references)

/-- The merged import set after `allImports.sort()`. -/
def Writer.sortedImports (w : Writer) : List String := sortStrings w.allImports

/-- `Writer.toString()`: package declaration (unless suppressed), then one
line per sorted merged import, then a blank line when there was at least
one import, then the buffer. -/
def Writer.toString (w : Writer) : String :=
  let result := if w.skipPackageDeclaration then "" else "package " ++ w.packageName ++ ";\n\n"
  let result := w.sortedImports.foldl (fun acc importName => acc ++ "import " ++ importName ++ ";\n") result
  let result := if 0 < w.sortedImports.length then result ++ "\n" else result
  result ++ w.buffer

/-- The package-declaration part of the rendered document. -/
def packagePart (w : Writer) : String :=
  if w.skipPackageDeclaration then "" else "package " ++ w.packageName ++ ";\n\n"

/-- The import block of the rendered document: one `import <fqn>;` line per
element of the sorted merged import set. -/
def importBlock (w : Writer) : String :=
  String.join (w.sortedImports.map (fun n => "import " ++ n ++ ";\n"))

/-- Result of a sequence of `addReference` calls. -/
def applyReferences (w : Writer) (rs : List ClassReference) : Writer :=
  rs.foldl Writer.addReference w

/-- A registration event: either an `addReference` call or an `addImport` call. -/
inductive Registration where
  | ref : ClassReference → Registration
  | imp : String → Registration
deriving DecidableEq, Repr

/-- The fully-qualified name a registration event denotes. -/
def Registration.fqn : Registration → String
  | .ref r => r.packageName ++ "." ++ r.name
  | .imp s => s

/-- Whether a registration event actually registers: an explicit import always
does, a reference only when its package differs from the target `pkg`. -/
def Registration.survives (pkg : String) : Registration → Bool
  | .ref r => r.packageName != pkg
  | .imp _ => true

/-- Performing one registration event on a writer. -/
def Registration.apply (w : Writer) : Registration → Writer
  | .ref r => w.addReference r
  | .imp s => w.addImport s

/-- Performing a sequence of registration events on a writer. -/
def applyRegistrations (w : Writer) (evs : List Registration) : Writer :=
  evs.foldl Registration.apply w

/-- The indentation operations of the writer. -/
inductive IndentOp where
  | ind : IndentOp
  | ded : IndentOp
deriving DecidableEq, Repr

/-- Performing one indentation operation. -/
def applyIndentOp (w : Writer) : IndentOp → Writer
  | .ind => w.indent
  | .ded => w.dedent

/-- Performing a sequence of indentation operations. -/
def applyIndentOps (w : Writer) (ops : List IndentOp) : Writer :=
  ops.foldl applyIndentOp w

/-! ### Set and sorting lemmas -/

theorem mem_setAdd {l : List String} {x y : String} :
    y ∈ setAdd l x ↔ y ∈ l ∨ y = x := by
  unfold setAdd
  split
  · rename_i h
    constructor
    · exact Or.inl
    · rintro (hy | rfl)
      · exact hy
      · exact h
  · simp

theorem setAdd_nodup {l : List String} (x : String) (h : l.Nodup) : (setAdd l x).Nodup := by
  unfold setAdd
  split
  · exact h
  · rename_i hx
    simp [List.nodup_append, hx, h]

theorem foldl_setAdd_nodup (l : List String) :
    ∀ acc : List String, acc.Nodup → (l.foldl setAdd acc).Nodup := by
  induction l with
  | nil => exact fun _ h => h
  | cons x xs ih => exact fun acc h => ih _ (setAdd_nodup x h)

theorem dedupKeepFirst_nodup (l : List String) : (dedupKeepFirst l).Nodup :=
  foldl_setAdd_nodup l [] List.nodup_nil

theorem mem_foldl_setAdd (l : List String) :
    ∀ (acc : List String) (y : String), y ∈ l.foldl setAdd acc ↔ y ∈ acc ∨ y ∈ l := by
  induction l with
  | nil => simp
  | cons x xs ih =>
    intro acc y
    simp only [List.foldl_cons, ih, mem_setAdd, List.mem_cons]
    tauto

theorem mem_dedupKeepFirst {l : List String} {y : String} :
    y ∈ dedupKeepFirst l ↔ y ∈ l := by
  simp [dedupKeepFirst, mem_foldl_setAdd]

theorem dedupKeepFirst_eq_nil_iff {l : List String} : dedupKeepFirst l = [] ↔ l = [] := by
  constructor
  · intro h
    refine List.eq_nil_iff_forall_not_mem.mpr fun x hx => ?_
    have : x ∈ dedupKeepFirst l := mem_dedupKeepFirst.mpr hx
    rw [h] at this
    cases this
  · rintro rfl
    rfl

theorem nodup_all_eq_singleton {d : List String} {s : String}
    (hn : d.Nodup) (hall : ∀ x ∈ d, x = s) (hs : s ∈ d) : d = [s] := by
  match d with
  | [] => cases hs
  | [a] => rw [hall a (by simp)]
  | a :: b :: t =>
    exfalso
    have ha : a = s := hall a (by simp)
    have hb : b = s := hall b (by simp)
    have : a ∉ b :: t := (List.nodup_cons.mp hn).1
    exact this (by simp [ha, hb])

instance : IsTrans String (fun a b => strLe a b = true) := ⟨fun _ _ _ => strLe_trans⟩

instance : IsTotal String (fun a b => strLe a b = true) := ⟨strLe_total⟩

theorem sortStrings_sorted (l : List String) :
    List.Sorted (fun a b => strLe a b = true) (sortStrings l) :=
  List.sorted_insertionSort _ l

theorem sortStrings_perm (l : List String) : (sortStrings l).Perm l :=
  List.perm_insertionSort _ l

theorem sortedImports_nodup (w : Writer) : w.sortedImports.Nodup :=
  (sortStrings_perm w.allImports).nodup_iff.mpr (dedupKeepFirst_nodup _)

theorem sortedImports_eq_nil_iff (w : Writer) :
    w.sortedImports = [] ↔ w.imports ++ w.references = [] := by
  constructor
  · intro h
    refine dedupKeepFirst_eq_nil_iff.mp ?_
    have hp := (sortStrings_perm w.allImports).symm
    rw [show sortStrings w.allImports = w.sortedImports from rfl, h] at hp
    exact hp.eq_nil
  · intro h
    show sortStrings (dedupKeepFirst (w.imports ++ w.references)) = []
    rw [h]
    rfl

theorem string_foldl_append_init (l : List String) :
    ∀ a : String, l.foldl (· ++ ·) a = a ++ l.foldl (· ++ ·) "" := by
  induction l with
  | nil => intro a; simp
  | cons x xs ih =>
    intro a
    simp only [List.foldl_cons]
    rw [ih (a ++ x), ih ("" ++ x), String.append_assoc]
    simp

theorem string_join_cons (s : String) (l : List String) :
    String.join (s :: l) = s ++ String.join l := by
  show (s :: l).foldl (· ++ ·) "" = s ++ l.foldl (· ++ ·) ""
  simp only [List.foldl_cons]
  rw [string_foldl_append_init l ("" ++ s)]
  simp

theorem foldl_write_strings {α : Type} (f : α → String) (l : List α) (acc : String) :
    l.foldl (fun acc x => acc ++ f x) acc = acc ++ String.join (l.map f) := by
  induction l generalizing acc with
  | nil => simp [String.join]
  | cons x xs ih =>
    simp only [List.foldl_cons, List.map_cons, ih, string_join_cons]
    rw [String.append_assoc]

theorem foldl_import_lines (l : List String) (acc : String) :
    l.foldl (fun acc n => acc ++ "import " ++ n ++ ";\n") acc
      = acc ++ String.join (l.map (fun n => "import " ++ n ++ ";\n")) := by
  have h : (fun acc n => acc ++ "import " ++ n ++ ";\n")
      = fun (acc : String) (n : String) => acc ++ ("import " ++ n ++ ";\n") := by
    funext acc n
    rw [String.append_assoc, String.append_assoc, String.append_assoc]
  rw [h, foldl_write_strings (fun n => "import " ++ n ++ ";\n") l acc]

theorem string_length_pos_iff (s : String) : 0 < s.length ↔ s ≠ "" := by
  rw [show s.length = s.data.length from rfl, List.length_pos]
  constructor
  · intro h hs
    exact h (hs ▸ rfl)
  · intro h hd
    exact h (String.ext hd)

/-- The rendered document decomposes into the package part, then (when the
merged import set is non-empty) the import block followed by one blank line,
then the buffer. -/
theorem toString_split (w : Writer) :
    Writer.toString w
      = packagePart w
        ++ (if w.imports ++ w.references = [] then "" else importBlock w ++ "\n")
        ++ w.buffer := by
  simp only [Writer.toString, packagePart, importBlock]
  rw [foldl_import_lines]
  by_cases h : w.imports ++ w.references = []
  · have hsi : w.sortedImports = [] := (sortedImports_eq_nil_iff w).mpr h
    simp [hsi, h, String.join]
  · have hsi : w.sortedImports ≠ [] := fun hc => h ((sortedImports_eq_nil_iff w).mp hc)
    have hlen : 0 < w.sortedImports.length := List.length_pos.mpr hsi
    simp only [if_neg h, if_pos hlen]
    simp [String.append_assoc]

theorem addReference_packageName (w : Writer) (r : ClassReference) :
    (w.addReference r).packageName = w.packageName := by
  unfold Writer.addReference
  split <;> rfl

theorem applyReferences_filter (rs : List ClassReference) :
    ∀ w : Writer, applyReferences w rs
      = applyReferences w (rs.filter (fun r => r.packageName != w.packageName)) := by
  induction rs with
  | nil => exact fun _ => rfl
  | cons r rest ih =>
    intro w
    by_cases h : r.packageName = w.packageName
    · have hnoop : w.addReference r = w := by simp [Writer.addReference, h]
      have hfilter : (r :: rest).filter (fun r => r.packageName != w.packageName)
          = rest.filter (fun r => r.packageName != w.packageName) := by
        simp [List.filter_cons, h]
      rw [hfilter]
      show applyReferences (w.addReference r) rest = _
      rw [hnoop]
      exact ih w
    · have hfilter : (r :: rest).filter (fun r => r.packageName != w.packageName)
          = r :: rest.filter (fun r => r.packageName != w.packageName) := by
        simp [List.filter_cons, h]
      rw [hfilter]
      show applyReferences (w.addReference r) rest
        = applyReferences (w.addReference r) (rest.filter (fun r => r.packageName != w.packageName))
      have hpkg := addReference_packageName w r
      have := ih (w.addReference r)
      simp only [hpkg] at this
      exact this

/-! ### Claim theorems -/

/-- C1: for every sequence of `addReference` calls, references whose package
equals the Writer's target package contribute nothing — dropping them from the
sequence leaves both the writer state and the rendered document unchanged, no
matter how many times they were registered. -/
theorem same_package_references_contribute_no_import (w : Writer) (rs : List ClassReference) :
    applyReferences w rs
      = applyReferences w (rs.filter (fun r => r.packageName != w.packageName))
    ∧ Writer.toString (applyReferences w rs)
      = Writer.toString (applyReferences w (rs.filter (fun r => r.packageName != w.packageName))) :=
  ⟨applyReferences_filter rs w, congrArg Writer.toString (applyReferences_filter rs w)⟩

/-- C3: for every writer state — hence for every set of registered imports and
references, in any registration order — the fully-qualified names whose import
lines are emitted are in strictly ascending lexicographic order. -/
theorem import_lines_strictly_sorted (w : Writer) :
    List.Pairwise (fun a b => strLt a b = true) w.sortedImports := by
  have hs := sortStrings_sorted w.allImports
  have hn := sortedImports_nodup w
  exact (List.Pairwise.and hs hn).imp (fun hab => strLt_of_strLe_of_ne hab.1 hab.2)

/-- C4: the rendered document carries a blank line immediately after the
block of imports exactly when the merged import set (explicit imports united
with surviving references) is non-empty; when it is empty, nothing at all is
inserted between the package part and the buffer. -/
theorem blank_line_iff_imports_nonempty (w : Writer) :
    Writer.toString w
      = packagePart w
        ++ (if w.imports ++ w.references = [] then "" else importBlock w ++ "\n")
        ++ w.buffer :=
  toString_split w

/-- C6: a fresh writer for package `com.example` with suppression off renders
to exactly `"package com.example;\n\n"`. -/
theorem empty_writer_renders_package_only :
    Writer.toString (Writer.create "com.example" false) = "package com.example;\n\n" := by
  decide

/-- C5 counterexample: on a fresh writer the merged import set and the buffer
are both empty, yet the rendered document's line right after the
`package com.example;` line is blank — the blank line after the package line
is emitted unconditionally, contradicting the claim that it is present only
when an import line or body text follows. -/
theorem package_blank_line_counterexample :
    (Writer.create "com.example" false).imports = []
    ∧ (Writer.create "com.example" false).references = []
    ∧ (Writer.create "com.example" false).buffer = ""
    ∧ splitNl (Writer.toString (Writer.create "com.example" false))
        = ["package com.example;", "", ""] := by
  decide

/-- C5 amended: whenever the package declaration is emitted, the
`package <name>;` line is followed by a blank line unconditionally, whether or
not any import line or body text follows. -/
theorem package_line_always_followed_by_blank (w : Writer)
    (h : w.skipPackageDeclaration = false) :
    ∃ rest, Writer.toString w = "package " ++ w.packageName ++ ";\n\n" ++ rest := by
  refine ⟨(if w.imports ++ w.references = [] then "" else importBlock w ++ "\n") ++ w.buffer, ?_⟩
  rw [toString_split w]
  have hpp : packagePart w = "package " ++ w.packageName ++ ";\n\n" := by
    simp [packagePart, h]
  rw [hpp, String.append_assoc]

/-- Witness for the amended C5 at a concrete writer. -/
theorem package_line_always_followed_by_blank_witness :
    (Writer.create "com.example" false).skipPackageDeclaration = false
    ∧ ∃ rest, Writer.toString (Writer.create "com.example" false)
        = "package " ++ (Writer.create "com.example" false).packageName ++ ";\n\n" ++ rest :=
  ⟨rfl, package_line_always_followed_by_blank (Writer.create "com.example" false) rfl⟩

/-- C7: starting from a fresh writer, any sequence of indent/dedent calls
keeps the indentation level non-negative, and a dedent performed when the
level is zero leaves the writer entirely unchanged (no failure, no negative
level). -/
theorem indent_floor (pkg : String) (skip : Bool) (ops : List IndentOp) :
    0 ≤ (applyIndentOps (Writer.create pkg skip) ops).indentLevel
    ∧ ((applyIndentOps (Writer.create pkg skip) ops).indentLevel = 0 →
        applyIndentOps (Writer.create pkg skip) (ops ++ [IndentOp.ded])
          = applyIndentOps (Writer.create pkg skip) ops) := by
  have key : ∀ (ops : List IndentOp) (w : Writer), 0 ≤ w.indentLevel →
      0 ≤ (applyIndentOps w ops).indentLevel := by
    intro ops
    induction ops with
    | nil => exact fun _ h => h
    | cons op rest ih =>
      intro w h
      refine ih _ ?_
      cases op with
      | ind =>
        simp only [applyIndentOps, List.foldl_cons, applyIndentOp, Writer.indent]
        omega
      | ded =>
        show 0 ≤ w.dedent.indentLevel
        unfold Writer.dedent
        split
        · rename_i hpos
          show (0:Int) ≤ w.indentLevel - 1
          omega
        · exact h
  constructor
  · exact key ops _ (by simp [Writer.create])
  · intro h0
    rw [show applyIndentOps (Writer.create pkg skip) (ops ++ [IndentOp.ded])
        = (applyIndentOps (Writer.create pkg skip) ops).dedent from by
      simp [applyIndentOps, List.foldl_append, applyIndentOp]]
    unfold Writer.dedent
    rw [if_neg (by rw [h0]; exact lt_irrefl 0)]

/-- Witness for C7 at a concrete operation sequence. -/
theorem indent_floor_witness :
    0 ≤ (applyIndentOps (Writer.create "com.example" false) [IndentOp.ded]).indentLevel
    ∧ applyIndentOps (Writer.create "com.example" false) ([IndentOp.ded] ++ [IndentOp.ded])
        = applyIndentOps (Writer.create "com.example" false) [IndentOp.ded] :=
  ⟨(indent_floor "com.example" false [IndentOp.ded]).1,
   (indent_floor "com.example" false [IndentOp.ded]).2 (by decide)⟩

/-- C8: the ensure-trailing-newline guard is idempotent, appends a newline
exactly when the buffer is non-empty and does not already end in one, and is a
no-op on a writer whose buffer is empty. -/
theorem ensure_trailing_newline_props (w : Writer) :
    w.writeNewLineIfLastLineNot.writeNewLineIfLastLineNot = w.writeNewLineIfLastLineNot
    ∧ w.writeNewLineIfLastLineNot.buffer
        = (if w.buffer ≠ "" ∧ w.buffer.data.getLast? ≠ some '\n'
            then w.buffer ++ "\n" else w.buffer)
    ∧ Writer.writeNewLineIfLastLineNot { w with buffer := "" } = { w with buffer := "" } := by
  have hlast : ∀ s : String, (s ++ "\n").data.getLast? = some '\n' := by
    intro s
    rw [String.data_append]
    simp [List.getLast?_concat]
  refine ⟨?_, ?_, ?_⟩
  · by_cases h : 0 < w.buffer.length ∧ w.buffer.data.getLast? ≠ some '\n'
    · have h1 : w.writeNewLineIfLastLineNot = { w with buffer := w.buffer ++ "\n" } := by
        simp only [Writer.writeNewLineIfLastLineNot, if_pos h]
      rw [h1]
      simp only [Writer.writeNewLineIfLastLineNot]
      rw [if_neg]
      intro hc
      exact hc.2 (hlast w.buffer)
    · have h1 : w.writeNewLineIfLastLineNot = w := by
        simp only [Writer.writeNewLineIfLastLineNot, if_neg h]
      rw [h1, h1]
  · by_cases h : 0 < w.buffer.length ∧ w.buffer.data.getLast? ≠ some '\n'
    · have h2 : w.buffer ≠ "" ∧ w.buffer.data.getLast? ≠ some '\n' :=
        ⟨(string_length_pos_iff w.buffer).mp h.1, h.2⟩
      simp only [Writer.writeNewLineIfLastLineNot, if_pos h, if_pos h2]
    · have h2 : ¬ (w.buffer ≠ "" ∧ w.buffer.data.getLast? ≠ some '\n') := by
        intro hc
        exact h ⟨(string_length_pos_iff w.buffer).mpr hc.1, hc.2⟩
      simp only [Writer.writeNewLineIfLastLineNot, if_neg h, if_neg h2]
  · simp [Writer.writeNewLineIfLastLineNot]

theorem setAdd_ne_nil (l : List String) (x : String) : setAdd l x ≠ [] := by
  unfold setAdd
  split
  · rename_i h
    intro hc
    rw [hc] at h
    cases h
  · intro hc
    rcases List.append_eq_nil.mp hc with ⟨_, h2⟩
    cases h2

theorem applyRegistrations_invariant (pkg s : String) :
    ∀ (evs : List Registration) (w : Writer),
      w.packageName = pkg →
      (∀ e ∈ evs, e.fqn = s) →
      (∀ e ∈ evs, e.survives pkg = true) →
      (∀ x ∈ w.imports, x = s) →
      (∀ x ∈ w.references, x = s) →
      ((applyRegistrations w evs).packageName = pkg
        ∧ (∀ x ∈ (applyRegistrations w evs).imports, x = s)
        ∧ (∀ x ∈ (applyRegistrations w evs).references, x = s)
        ∧ (applyRegistrations w evs).buffer = w.buffer
        ∧ (applyRegistrations w evs).skipPackageDeclaration = w.skipPackageDeclaration
        ∧ ((evs ≠ [] ∨ w.imports ++ w.references ≠ []) →
            (applyRegistrations w evs).imports ++ (applyRegistrations w evs).references ≠ [])) := by
  intro evs
  induction evs with
  | nil =>
    intro w hpkg _ _ hi hr
    refine ⟨hpkg, hi, hr, rfl, rfl, ?_⟩
    rintro (h | h)
    · exact absurd rfl h
    · exact h
  | cons e rest ih =>
    intro w hpkg hall hsurv hi hr
    have hes : e.fqn = s := hall e (by simp)
    have hesv : e.survives pkg = true := hsurv e (by simp)
    have hallr : ∀ x ∈ rest, Registration.fqn x = s := fun x hx => hall x (by simp [hx])
    have hsurvr : ∀ x ∈ rest, Registration.survives pkg x = true := fun x hx =>
      hsurv x (by simp [hx])
    show ((applyRegistrations (e.apply w) rest).packageName = pkg ∧ _)
    cases e with
    | imp t =>
      have hts : t = s := hes
      have hi' : ∀ x ∈ (w.addImport t).imports, x = s := by
        intro x hx
        rcases mem_setAdd.mp hx with h | h
        · exact hi x h
        · exact h.trans hts
      obtain ⟨a1, a2, a3, a4, a5, a6⟩ :=
        ih (w.addImport t) hpkg hallr hsurvr hi' hr
      refine ⟨a1, a2, a3, a4, a5, fun _ => a6 (Or.inr ?_)⟩
      intro hc
      rcases List.append_eq_nil.mp hc with ⟨hcl, _⟩
      exact setAdd_ne_nil w.imports t hcl
    | ref r =>
      have hrs : r.packageName ++ "." ++ r.name = s := hes
      have hnepkg : r.packageName ≠ pkg := by
        simpa [Registration.survives] using hesv
      have hstep : w.addReference r
          = { w with references := setAdd w.references (r.packageName ++ "." ++ r.name) } := by
        rw [Writer.addReference, if_neg]
        rw [hpkg]
        exact hnepkg
      have hr' : ∀ x ∈ (w.addReference r).references, x = s := by
        rw [hstep]
        intro x hx
        rcases mem_setAdd.mp hx with h | h
        · exact hr x h
        · exact hrs ▸ h
      have hi' : ∀ x ∈ (w.addReference r).imports, x = s := by
        rw [hstep]
        exact hi
      have hpkg' : (w.addReference r).packageName = pkg := by
        rw [hstep]
        exact hpkg
      obtain ⟨a1, a2, a3, a4, a5, a6⟩ :=
        ih (w.addReference r) hpkg' hallr hsurvr hi' hr'
      refine ⟨a1, a2, a3, a4.trans (by rw [hstep]), a5.trans (by rw [hstep]), fun _ => a6 (Or.inr ?_)⟩
      rw [hstep]
      intro hc
      rcases List.append_eq_nil.mp hc with ⟨_, hcr⟩
      exact setAdd_ne_nil w.references (r.packageName ++ "." ++ r.name) hcr

/-- C2 counterexample: a single registration (`N = 1`) of the fully-qualified
name `com.example.SamePackageClass` through `addReference` on a writer whose
target package is `com.example` yields zero import lines, not exactly one —
the claim's "any mix" includes same-package references, which the writer
suppresses. -/
theorem dedup_claim_counterexample :
    Registration.fqn (Registration.ref ⟨"SamePackageClass", "com.example"⟩)
        = "com.example.SamePackageClass"
    ∧ (applyRegistrations (Writer.create "com.example" false)
        [Registration.ref ⟨"SamePackageClass", "com.example"⟩]).sortedImports = []
    ∧ ¬ ((applyRegistrations (Writer.create "com.example" false)
          [Registration.ref ⟨"SamePackageClass", "com.example"⟩]).sortedImports.count
            "com.example.SamePackageClass" = 1) := by
  decide

/-- C2 amended: registering one fully-qualified name `N ≥ 1` times — through
`addReference`, `addImport`, or any mix denoting that name — yields exactly
one `import <name>;` line in the rendered document, provided every
registration survives (references must name a package other than the writer's
target package; explicit imports always survive). -/
theorem registrations_of_one_fqn_yield_single_import (pkg s : String) (skip : Bool)
    (evs : List Registration) (hne : evs ≠ [])
    (hall : ∀ e ∈ evs, e.fqn = s)
    (hsurv : ∀ e ∈ evs, e.survives pkg = true) :
    (applyRegistrations (Writer.create pkg skip) evs).sortedImports = [s]
    ∧ Writer.toString (applyRegistrations (Writer.create pkg skip) evs)
        = (if skip then "" else "package " ++ pkg ++ ";\n\n")
          ++ ("import " ++ s ++ ";\n") ++ "\n" := by
  obtain ⟨hp, hi, hr, hbuf, hskip, hnonempty⟩ :=
    applyRegistrations_invariant pkg s evs (Writer.create pkg skip) rfl hall hsurv
      (by intro x hx; cases hx) (by intro x hx; cases hx)
  have hne' : (applyRegistrations (Writer.create pkg skip) evs).imports
      ++ (applyRegistrations (Writer.create pkg skip) evs).references ≠ [] :=
    hnonempty (Or.inl hne)
  have hallmem : ∀ x ∈ (applyRegistrations (Writer.create pkg skip) evs).imports
      ++ (applyRegistrations (Writer.create pkg skip) evs).references, x = s := by
    intro x hx
    rcases List.mem_append.mp hx with h | h
    · exact hi x h
    · exact hr x h
  have hall2 : (applyRegistrations (Writer.create pkg skip) evs).allImports = [s] := by
    refine nodup_all_eq_singleton (dedupKeepFirst_nodup _) ?_ ?_
    · intro x hx
      exact hallmem x (mem_dedupKeepFirst.mp hx)
    · obtain ⟨x, hx⟩ := List.exists_mem_of_ne_nil _ hne'
      have hxs := hallmem x hx
      exact mem_dedupKeepFirst.mpr (hxs ▸ hx)
  have hsort : (applyRegistrations (Writer.create pkg skip) evs).sortedImports = [s] := by
    show sortStrings (applyRegistrations (Writer.create pkg skip) evs).allImports = [s]
    rw [hall2]
    rfl
  refine ⟨hsort, ?_⟩
  rw [toString_split, if_neg hne']
  have hpp : packagePart (applyRegistrations (Writer.create pkg skip) evs)
      = (if skip then "" else "package " ++ pkg ++ ";\n\n") := by
    simp only [packagePart, hskip, hp]
    rfl
  have hib : importBlock (applyRegistrations (Writer.create pkg skip) evs)
      = "import " ++ s ++ ";\n" := by
    simp only [importBlock, hsort, List.map_cons, List.map_nil, string_join_cons]
    show ("import " ++ s ++ ";\n") ++ String.join [] = _
    simp [String.join]
  rw [hpp, hib, hbuf]
  show _ ++ _ ++ "" = _
  simp [String.append_assoc]

/-- An example registration sequence: the same reference twice and the same
explicit import once, all denoting `java.util.ArrayList`. -/
def regsExample : List Registration :=
  [Registration.ref ⟨"ArrayList", "java.util"⟩,
   Registration.ref ⟨"ArrayList", "java.util"⟩,
   Registration.imp "java.util.ArrayList"]

/-- Witness for the amended C2 at a concrete registration sequence. -/
theorem registrations_of_one_fqn_yield_single_import_witness :
    regsExample ≠ []
    ∧ (∀ e ∈ regsExample, e.fqn = "java.util.ArrayList")
    ∧ (∀ e ∈ regsExample, e.survives "com.example" = true)
    ∧ (applyRegistrations (Writer.create "com.example" false) regsExample).sortedImports
        = ["java.util.ArrayList"]
    ∧ Writer.toString (applyRegistrations (Writer.create "com.example" false) regsExample)
        = (if false then "" else "package " ++ "com.example" ++ ";\n\n")
          ++ ("import " ++ "java.util.ArrayList" ++ ";\n") ++ "\n" :=
  ⟨by decide, by decide, by decide,
   (registrations_of_one_fqn_yield_single_import "com.example" "java.util.ArrayList" false
      regsExample (by decide) (by decide) (by decide)).1,
   (registrations_of_one_fqn_yield_single_import "com.example" "java.util.ArrayList" false
      regsExample (by decide) (by decide) (by decide)).2⟩

/-!
### The class emitter

`Class.write` and `Class.writeConstructor` are translated from
`src/unnamed/part_000` (the `Class` AST node).  The leaf construct types it
delegates to (`Annotation`, `Parameter`, `CodeBlock`, `Field`, `Method`,
`Interface`, `Enum`) are not under `src/`; they are modelled from the spec
(§1, §4.1): each is a data holder that renders itself into the Writer by
emitting its literal tokens.  JS string truthiness (`if (this.javadoc)`) is
modelled by an emptiness test on the optional string.
-/

/-- JS truthiness of an optional string: present and non-empty. -/
def strTruthy : Option String → Bool
  | some t => t != ""
  | none => false

/-- Modelled from the spec: an annotation node is a data holder (missing from
`src/`) whose `write` emits its literal tokens inline into the writer; the
class emitter itself terminates the line afterwards. -/
structure AnnotationM where
  text : String
deriving DecidableEq, Repr

/-- The annotation node's `write(writer)`. -/
def AnnotationM.write (a : AnnotationM) (w : Writer) : Writer := w.write a.text

/-- Modelled from the spec: a parameter node (missing from `src/`) is a data
holder carrying its name, its optional inline documentation and the tokens it
emits; its `write` emits those tokens inline. -/
structure ParameterM where
  name : String
  docs : Option String
  text : String
deriving DecidableEq, Repr

/-- The parameter node's `write(writer)`. -/
def ParameterM.write (p : ParameterM) (w : Writer) : Writer := w.write p.text

/-- Modelled from the spec: a code-block node (missing from `src/`) is a data
holder whose `write` emits its literal code tokens inline. -/
structure CodeBlockM where
  code : String
deriving DecidableEq, Repr

/-- The code-block node's `write(writer)`. -/
def CodeBlockM.write (b : CodeBlockM) (w : Writer) : Writer := w.write b.code

/-- Modelled from the spec: a field node (missing from `src/`) emits its
declaration tokens without a trailing newline — `Class.write` terminates the
line (`writeLine()`) and adds the separating blank line (`newLine()`). -/
structure FieldM where
  text : String
deriving DecidableEq, Repr

/-- The field node's `write(writer)`. -/
def FieldM.write (f : FieldM) (w : Writer) : Writer := w.write f.text

/-- Modelled from the spec: a method node (missing from `src/`) renders as a
sequence of source lines, each emitted through `writeLine` at the current
indentation (like every block construct it ends with a closing-brace line). -/
structure MethodM where
  lines : List String
deriving DecidableEq, Repr

/-- The method node's `write(writer)`. -/
def MethodM.write (m : MethodM) (w : Writer) : Writer :=
  m.lines.foldl (fun w l => w.writeLine (some l)) w

/-- Modelled from the spec: a nested-interface node (missing from `src/`),
rendered like a method as a sequence of lines. -/
structure InterfaceM where
  lines : List String
deriving DecidableEq, Repr

/-- The interface node's `write(writer)`. -/
def InterfaceM.write (x : InterfaceM) (w : Writer) : Writer :=
  x.lines.foldl (fun w l => w.writeLine (some l)) w

/-- Modelled from the spec: a nested-enum node (missing from `src/`),
rendered like a method as a sequence of lines. -/
structure EnumM where
  lines : List String
deriving DecidableEq, Repr

/-- The enum node's `write(writer)`. -/
def EnumM.write (x : EnumM) (w : Writer) : Writer :=
  x.lines.foldl (fun w l => w.writeLine (some l)) w

/-- Translated from `Class.Constructor` in `src/unnamed/part_000`: the record
describing one constructor (optional fields are `Option`s, exactly as the
source's optional properties). -/
structure CtorM where
  body : Option CodeBlockM
  parameters : List ParameterM
  access : String
  javadoc : Option String
  annotations : Option (List AnnotationM)
  superCall : Option CodeBlockM
  thisCall : Option CodeBlockM
  throws : Option (List ClassReference)
deriving DecidableEq, Repr

/-- Translated from `Class.Args` plus the scalar fields of `Class` in
`src/unnamed/part_000` (defaults already applied, as in the source
constructor). -/
structure ClassArgs where
  name : String
  packageName : String
  access : String
  abstract_ : Bool
  final_ : Bool
  static_ : Bool
  extends_ : Option ClassReference
  implements_ : List ClassReference
  isNestedClass : Bool
  annotations : List AnnotationM
  javadoc : Option String
  typeParameters : List String
deriving DecidableEq, Repr

/-- The `Class` AST node of `src/unnamed/part_000`: its scalar arguments plus
the six member sections (fields, constructors, methods, nested classes,
nested interfaces, nested enums), each in insertion order. -/
inductive JClass where
  | mk : ClassArgs → List FieldM → List CtorM → List MethodM → List JClass →
      List InterfaceM → List EnumM → JClass

/-- The scalar arguments of a class node. -/
def JClass.args : JClass → ClassArgs
  | .mk a _ _ _ _ _ _ => a

/-- The fields section of a class node. -/
def JClass.fields : JClass → List FieldM
  | .mk _ f _ _ _ _ _ => f

/-- The constructors section of a class node. -/
def JClass.constructors : JClass → List CtorM
  | .mk _ _ k _ _ _ _ => k

/-- The methods section of a class node. -/
def JClass.methods : JClass → List MethodM
  | .mk _ _ _ m _ _ _ => m

/-- The nested-classes section of a class node. -/
def JClass.nestedClasses : JClass → List JClass
  | .mk _ _ _ _ n _ _ => n

/-- The nested-interfaces section of a class node. -/
def JClass.nestedInterfaces : JClass → List InterfaceM
  | .mk _ _ _ _ _ i _ => i

/-- The nested-enums section of a class node. -/
def JClass.nestedEnums : JClass → List EnumM
  | .mk _ _ _ _ _ _ e => e

/-- The javadoc block emitted by `Class.write` (`if (this.javadoc) { ... }`):
`/**`, one ` * <line>` per line of the doc text, `*/`. -/
def writeJavadoc (jd : Option String) (w : Writer) : Writer :=
  match jd with
  | some t =>
    if t = "" then w
    else
      let w := w.writeLine (some "/**")
      let w := (splitNl t).foldl (fun w line => w.writeLine (some (" * " ++ line))) w
      w.writeLine (some " */")
  | none => w

/-- The annotation loop of `Class.write`: each annotation writes itself and
the line is terminated. -/
def writeAnnotationList (anns : List AnnotationM) (w : Writer) : Writer :=
  anns.foldl (fun w a => (a.write w).writeLine none) w

/-- The access and modifier tokens of the class declaration line: access,
`abstract`, `final`, `static` (in that order), `class`, then the name. -/
def writeModifierTokens (args : ClassArgs) (w : Writer) : Writer :=
  let w := w.write (args.access ++ " ")
  let w := if args.abstract_ then w.write "abstract " else w
  let w := if args.final_ then w.write "final " else w
  let w := if args.static_ then w.write "static " else w
  let w := w.write "class "
  w.write args.name

/-- The generic type parameter list of the class declaration line. -/
def writeTypeParams (args : ClassArgs) (w : Writer) : Writer :=
  if 0 < args.typeParameters.length then
    ((w.write "<").write (String.intercalate ", " args.typeParameters)).write ">"
  else w

/-- The `extends` clause of the class declaration line (registers a
reference for the supertype and writes its simple name). -/
def writeExtends (args : ClassArgs) (w : Writer) : Writer :=
  match args.extends_ with
  | some e => ((w.write " extends ").addReference e).write e.name
  | none => w

/-- The `implements` clause of the class declaration line (registers one
reference per interface, writing simple names comma-separated). -/
def writeImplements (args : ClassArgs) (w : Writer) : Writer :=
  if 0 < args.implements_.length then
    args.implements_.enum.foldl
      (fun w p =>
        let w2 := (w.addReference p.2).write p.2.name
        if p.1 < args.implements_.length - 1 then w2.write ", " else w2)
      (w.write " implements ")
  else w

/-- The declaration line of `Class.write`: access, modifiers (abstract,
final, static, in that order), `class`, name, generic parameters, `extends`
clause, `implements` clause. -/
def writeClassDeclLine (args : ClassArgs) (w : Writer) : Writer :=
  writeImplements args (writeExtends args (writeTypeParams args (writeModifierTokens args w)))

/-- Whether `Class.writeConstructor` emits a doc block:
`constructor.javadoc || constructor.parameters.some(p => p.docs)`. -/
def ctorHasDocs (k : CtorM) : Bool :=
  strTruthy k.javadoc || k.parameters.any (fun p => strTruthy p.docs)

/-- The javadoc lines inside a constructor's doc block
(`if (constructor.javadoc) { split and emit }`). -/
def writeCtorJavadocLines (jd : Option String) (w : Writer) : Writer :=
  match jd with
  | some t =>
    if t = "" then w
    else (splitNl t).foldl (fun w line => w.writeLine (some (" * " ++ line))) w
  | none => w

/-- One step of the parameter-doc loop: a documented parameter contributes an
`@param` line. -/
def writeParamDoc (w : Writer) (p : ParameterM) : Writer :=
  match p.docs with
  | some d =>
    if d = "" then w
    else w.writeLine (some (" * @param " ++ p.name ++ " " ++ d))
  | none => w

/-- The doc block of `Class.writeConstructor`: constructor javadoc lines then
one `@param` line per documented parameter. -/
def writeCtorDoc (k : CtorM) (w : Writer) : Writer :=
  if ctorHasDocs k then
    let w := w.writeLine (some "/**")
    let w := writeCtorJavadocLines k.javadoc w
    let w := k.parameters.foldl writeParamDoc w
    w.writeLine (some " */")
  else w

/-- The annotation loop of `Class.writeConstructor` (guarded by the optional
annotation list being present). -/
def writeCtorAnnotationList (k : CtorM) (w : Writer) : Writer :=
  match k.annotations with
  | some anns => writeAnnotationList anns w
  | none => w

/-- The parameter list of `Class.writeConstructor`: each parameter writes
itself, comma-separated. -/
def writeCtorParams (k : CtorM) (w : Writer) : Writer :=
  k.parameters.enum.foldl
    (fun w p =>
      let w2 := p.2.write w
      if p.1 < k.parameters.length - 1 then w2.write ", " else w2) w

/-- The throws clause of `Class.writeConstructor`: present only when the
optional list exists and is non-empty; registers one reference per thrown
type. -/
def writeCtorThrows (k : CtorM) (w : Writer) : Writer :=
  match k.throws with
  | some ts =>
    if 0 < ts.length then
      ts.enum.foldl
        (fun w p =>
          let w2 := (w.addReference p.2).write p.2.name
          if p.1 < ts.length - 1 then w2.write ", " else w2)
        (w.write " throws ")
    else w
  | none => w

/-- The delegation call of `Class.writeConstructor`: `super(...)` when a
superCall is present, otherwise `this(...)` when a thisCall is present,
otherwise nothing. -/
def writeCtorDelegation (k : CtorM) (w : Writer) : Writer :=
  match k.superCall with
  | some sc => (sc.write (w.write "super(")).writeLine (some ");")
  | none =>
    match k.thisCall with
    | some tc => (tc.write (w.write "this(")).writeLine (some ");")
    | none => w

/-- The free-form body of `Class.writeConstructor`. -/
def writeCtorBody (k : CtorM) (w : Writer) : Writer :=
  match k.body with
  | some b => b.write w
  | none => w

/-- `Class.writeConstructor` of `src/unnamed/part_000`: doc block,
annotations, signature line with parameters and throws clause, opening brace,
indent, delegation call, body, dedent, closing brace. -/
def writeConstructor (className : String) (w : Writer) (k : CtorM) : Writer :=
  let w := writeCtorDoc k w
  let w := writeCtorAnnotationList k w
  let w := w.write (k.access ++ " " ++ className ++ "(")
  let w := writeCtorParams k w
  let w := w.write ")"
  let w := writeCtorThrows k w
  let w := (w.writeLine (some " \x7b")).indent
  let w := writeCtorDelegation k w
  let w := writeCtorBody k w
  w.dedent.writeLine (some "\x7d")

mutual

/-- `Class.write` of `src/unnamed/part_000`: javadoc, annotations,
declaration line, opening brace and indent, then the six member sections in
fixed order — fields, constructors, methods, nested classes, nested
interfaces, nested enums — each member in insertion order and each followed
by a blank line, then dedent and the closing brace. -/
def JClass.write : JClass → Writer → Writer
  | JClass.mk args fs ks ms ns is es, w =>
    let w := writeJavadoc args.javadoc w
    let w := writeAnnotationList args.annotations w
    let w := writeClassDeclLine args w
    let w := (w.writeLine (some " \x7b")).indent
    let w := fs.foldl (fun w f => ((f.write w).writeLine none).newLine) w
    let w := ks.foldl (fun w k => (writeConstructor args.name w k).newLine) w
    let w := ms.foldl (fun w m => (m.write w).newLine) w
    let w := JClass.writeList ns w
    let w := is.foldl (fun w x => (x.write w).newLine) w
    let w := es.foldl (fun w x => (x.write w).newLine) w
    w.dedent.writeLine (some "\x7d")

/-- The nested-class loop of `Class.write`: each nested class writes itself
recursively, followed by a blank line. -/
def JClass.writeList : List JClass → Writer → Writer
  | [], w => w
  | c :: cs, w => JClass.writeList cs ((JClass.write c w).newLine)

end

/-!
### Closed-form rendering

Pure string functions computing exactly the text each part of the class
emitter appends to the buffer, proved below to coincide with the stateful
writes.
-/

/-- The text `writeLine(some t)` appends at indentation depth `i`. -/
def lineChunk (i : Int) (t : String) : String := indentation i ++ t ++ "\n"

/-- The text a line-sequence member (method, nested interface, nested enum)
appends at depth `i`. -/
def linesRender (i : Int) (ls : List String) : String :=
  String.join (ls.map (lineChunk i))

/-- The text of a javadoc block at depth `i`. -/
def javadocRender (i : Int) (jd : Option String) : String :=
  match jd with
  | some t =>
    if t = "" then ""
    else
      lineChunk i "/**"
        ++ String.join ((splitNl t).map (fun line => lineChunk i (" * " ++ line)))
        ++ lineChunk i " */"
  | none => ""

/-- The text of an annotation loop: each annotation's tokens, each followed
by a line terminator. -/
def annotationsRender (anns : List AnnotationM) : String :=
  String.join (anns.map (fun a => a.text ++ "\n"))

/-- The access/modifier/name tokens of the declaration line. -/
def modifierTokensRender (args : ClassArgs) : String :=
  args.access ++ " "
    ++ (if args.abstract_ then "abstract " else "")
    ++ (if args.final_ then "final " else "")
    ++ (if args.static_ then "static " else "")
    ++ "class " ++ args.name

/-- The generic type parameter list of the declaration line. -/
def typeParamsRender (args : ClassArgs) : String :=
  if 0 < args.typeParameters.length then
    "<" ++ String.intercalate ", " args.typeParameters ++ ">"
  else ""

/-- The `extends` clause of the declaration line. -/
def extendsRender (args : ClassArgs) : String :=
  match args.extends_ with
  | some e => " extends " ++ e.name
  | none => ""

/-- The `implements` clause of the declaration line. -/
def implementsRender (args : ClassArgs) : String :=
  if 0 < args.implements_.length then
    " implements "
      ++ String.join (args.implements_.enum.map
          (fun p => p.2.name ++ (if p.1 < args.implements_.length - 1 then ", " else "")))
  else ""

/-- The text of the class declaration line (without the opening brace). -/
def classDeclRender (args : ClassArgs) : String :=
  modifierTokensRender args ++ typeParamsRender args ++ extendsRender args
    ++ implementsRender args

/-- The text of a constructor's parameter list (between the parentheses). -/
def paramsRender (ps : List ParameterM) : String :=
  String.join (ps.enum.map (fun p => p.2.text ++ (if p.1 < ps.length - 1 then ", " else "")))

/-- The text of a constructor's throws clause. -/
def throwsRender (ts : Option (List ClassReference)) : String :=
  match ts with
  | some l =>
    if 0 < l.length then
      " throws "
        ++ String.join (l.enum.map
            (fun p => p.2.name ++ (if p.1 < l.length - 1 then ", " else "")))
    else ""
  | none => ""

/-- The text of the javadoc lines inside a constructor's doc block at
depth `i`. -/
def ctorJavadocLinesRender (i : Int) (jd : Option String) : String :=
  match jd with
  | some t =>
    if t = "" then ""
    else String.join ((splitNl t).map (fun line => lineChunk i (" * " ++ line)))
  | none => ""

/-- The `@param` line a parameter contributes to a doc block at depth `i`. -/
def paramDocText (i : Int) (p : ParameterM) : String :=
  match p.docs with
  | some d =>
    if d = "" then ""
    else lineChunk i (" * @param " ++ p.name ++ " " ++ d)
  | none => ""

/-- The text of a constructor's doc block at depth `i`. -/
def ctorDocRender (i : Int) (k : CtorM) : String :=
  if ctorHasDocs k then
    lineChunk i "/**"
      ++ ctorJavadocLinesRender i k.javadoc
      ++ String.join (k.parameters.map (paramDocText i))
      ++ lineChunk i " */"
  else ""

/-- The text of a constructor's annotation loop. -/
def ctorAnnotationsRender (k : CtorM) : String :=
  match k.annotations with
  | some anns => annotationsRender anns
  | none => ""

/-- The text of the delegation call inside a constructor body; `j` is the
depth at which the call is written (one deeper than the constructor). -/
def delegationRender (j : Int) (k : CtorM) : String :=
  match k.superCall with
  | some sc => "super(" ++ sc.code ++ lineChunk j ");"
  | none =>
    match k.thisCall with
    | some tc => "this(" ++ tc.code ++ lineChunk j ");"
    | none => ""

/-- The text of a constructor's free-form body. -/
def ctorBodyRender (k : CtorM) : String :=
  match k.body with
  | some b => b.code
  | none => ""

/-- The complete text `Class.writeConstructor` appends when entered at
depth `i`. -/
def ctorRender (className : String) (i : Int) (k : CtorM) : String :=
  ctorDocRender i k
    ++ ctorAnnotationsRender k
    ++ (k.access ++ " " ++ className ++ "(")
    ++ paramsRender k.parameters
    ++ ")"
    ++ throwsRender k.throws
    ++ lineChunk i " \x7b"
    ++ delegationRender (i + 1) k
    ++ ctorBodyRender k
    ++ lineChunk i "\x7d"

mutual

/-- The complete text `Class.write` appends when entered at depth `i`. -/
def classRender : JClass → Int → String
  | JClass.mk args fs ks ms ns is es, i =>
    javadocRender i args.javadoc
      ++ annotationsRender args.annotations
      ++ classDeclRender args
      ++ lineChunk i " \x7b"
      ++ String.join (fs.map (fun f => f.text ++ "\n\n"))
      ++ String.join (ks.map (fun k => ctorRender args.name (i + 1) k ++ "\n"))
      ++ String.join (ms.map (fun m => linesRender (i + 1) m.lines ++ "\n"))
      ++ classListRender ns (i + 1)
      ++ String.join (is.map (fun x => linesRender (i + 1) x.lines ++ "\n"))
      ++ String.join (es.map (fun x => linesRender (i + 1) x.lines ++ "\n"))
      ++ lineChunk i "\x7d"

/-- The text the nested-class loop appends at depth `i`. -/
def classListRender : List JClass → Int → String
  | [], _ => ""
  | c :: cs, i => classRender c i ++ "\n" ++ classListRender cs i

end

/-- Everything `Class.write` emits before the member sections: javadoc,
annotations, declaration line, opening brace. -/
def classHeader (c : JClass) (i : Int) : String :=
  javadocRender i c.args.javadoc
    ++ annotationsRender c.args.annotations
    ++ classDeclRender c.args
    ++ lineChunk i " \x7b"

/-! ### Buffer lemmas for the writer operations -/

theorem write_buffer (w : Writer) (t : String) : (w.write t).buffer = w.buffer ++ t := rfl

theorem write_indentLevel (w : Writer) (t : String) :
    (w.write t).indentLevel = w.indentLevel := rfl

theorem writeLine_some_buffer (w : Writer) (t : String) :
    (w.writeLine (some t)).buffer = w.buffer ++ lineChunk w.indentLevel t := by
  show (w.buffer ++ (w.getIndentation ++ t)) ++ "\n" = _
  simp [Writer.getIndentation, lineChunk, String.append_assoc]

theorem writeLine_none_buffer (w : Writer) : (w.writeLine none).buffer = w.buffer ++ "\n" := rfl

theorem writeLine_indentLevel (w : Writer) (t : Option String) :
    (w.writeLine t).indentLevel = w.indentLevel := by
  cases t <;> rfl

theorem newLine_buffer (w : Writer) : w.newLine.buffer = w.buffer ++ "\n" := rfl

theorem newLine_indentLevel (w : Writer) : w.newLine.indentLevel = w.indentLevel := rfl

theorem addReference_buffer (w : Writer) (r : ClassReference) :
    (w.addReference r).buffer = w.buffer := by
  unfold Writer.addReference
  split <;> rfl

theorem addReference_indentLevel (w : Writer) (r : ClassReference) :
    (w.addReference r).indentLevel = w.indentLevel := by
  unfold Writer.addReference
  split <;> rfl

theorem indent_buffer (w : Writer) : w.indent.buffer = w.buffer := rfl

theorem indent_indentLevel (w : Writer) : w.indent.indentLevel = w.indentLevel + 1 := rfl

theorem dedent_buffer (w : Writer) : w.dedent.buffer = w.buffer := by
  unfold Writer.dedent
  split <;> rfl

theorem foldl_buffer_spec {α : Type} (step : Writer → α → Writer) (f : α → String) (i : Int)
    (h : ∀ w a, w.indentLevel = i →
      (step w a).buffer = w.buffer ++ f a ∧ (step w a).indentLevel = i) :
    ∀ (l : List α) (w : Writer), w.indentLevel = i →
      (l.foldl step w).buffer = w.buffer ++ String.join (l.map f)
      ∧ (l.foldl step w).indentLevel = i := by
  intro l
  induction l with
  | nil =>
    intro w hw
    exact ⟨by simp [String.join], hw⟩
  | cons x xs ih =>
    intro w hw
    obtain ⟨hb, hl⟩ := h w x hw
    obtain ⟨hb2, hl2⟩ := ih (step w x) hl
    refine ⟨?_, hl2⟩
    show (xs.foldl step (step w x)).buffer = _
    rw [hb2, hb, List.map_cons, string_join_cons, String.append_assoc]

theorem foldl_buffer_flat {α : Type} (step : Writer → α → Writer) (f : α → String)
    (h : ∀ w a, (step w a).buffer = w.buffer ++ f a ∧ (step w a).indentLevel = w.indentLevel) :
    ∀ (l : List α) (w : Writer),
      (l.foldl step w).buffer = w.buffer ++ String.join (l.map f)
      ∧ (l.foldl step w).indentLevel = w.indentLevel := by
  intro l w
  exact foldl_buffer_spec step f w.indentLevel
    (fun w' a h' => ⟨(h w' a).1, by rw [(h w' a).2, h']⟩) l w rfl

/-! ### Stage lemmas: the stateful emitter stages append their renders -/

theorem writeModifierTokens_spec (args : ClassArgs) (w : Writer) :
    (writeModifierTokens args w).buffer = w.buffer ++ modifierTokensRender args
    ∧ (writeModifierTokens args w).indentLevel = w.indentLevel := by
  cases habs : args.abstract_ <;> cases hfin : args.final_ <;> cases hst : args.static_ <;>
    refine ⟨?_, ?_⟩ <;>
      simp [writeModifierTokens, modifierTokensRender, habs, hfin, hst,
        write_buffer, write_indentLevel, String.append_assoc]

theorem writeTypeParams_spec (args : ClassArgs) (w : Writer) :
    (writeTypeParams args w).buffer = w.buffer ++ typeParamsRender args
    ∧ (writeTypeParams args w).indentLevel = w.indentLevel := by
  by_cases htp : 0 < args.typeParameters.length <;>
    refine ⟨?_, ?_⟩ <;>
      simp [writeTypeParams, typeParamsRender, htp,
        write_buffer, write_indentLevel, String.append_assoc]

theorem writeExtends_spec (args : ClassArgs) (w : Writer) :
    (writeExtends args w).buffer = w.buffer ++ extendsRender args
    ∧ (writeExtends args w).indentLevel = w.indentLevel := by
  cases hext : args.extends_ <;>
    refine ⟨?_, ?_⟩ <;>
      simp [writeExtends, extendsRender, hext, write_buffer, write_indentLevel,
        addReference_buffer, addReference_indentLevel, String.append_assoc]

theorem writeImplements_spec (args : ClassArgs) (w : Writer) :
    (writeImplements args w).buffer = w.buffer ++ implementsRender args
    ∧ (writeImplements args w).indentLevel = w.indentLevel := by
  by_cases himp : 0 < args.implements_.length
  · have hfold := foldl_buffer_flat
      (fun w p =>
        let w2 := (w.addReference p.2).write p.2.name
        if p.1 < args.implements_.length - 1 then w2.write ", " else w2)
      (fun p => p.2.name ++ (if p.1 < args.implements_.length - 1 then ", " else ""))
      (fun w' p => by
        by_cases hp : p.1 < args.implements_.length - 1
        · refine ⟨?_, ?_⟩ <;>
            simp [hp, write_buffer, write_indentLevel, addReference_buffer,
              addReference_indentLevel, String.append_assoc]
        · refine ⟨?_, ?_⟩ <;>
            simp [hp, write_buffer, write_indentLevel, addReference_buffer,
              addReference_indentLevel])
      args.implements_.enum (w.write " implements ")
    obtain ⟨hb, hl⟩ := hfold
    refine ⟨?_, ?_⟩
    · simp only [writeImplements, if_pos himp]
      rw [hb, write_buffer]
      simp [implementsRender, himp, String.append_assoc]
    · simp only [writeImplements, if_pos himp]
      rw [hl, write_indentLevel]
  · refine ⟨?_, ?_⟩ <;> simp [writeImplements, implementsRender, himp]

theorem writeClassDeclLine_spec (args : ClassArgs) (w : Writer) :
    (writeClassDeclLine args w).buffer = w.buffer ++ classDeclRender args
    ∧ (writeClassDeclLine args w).indentLevel = w.indentLevel := by
  obtain ⟨b1, l1⟩ := writeModifierTokens_spec args w
  obtain ⟨b2, l2⟩ := writeTypeParams_spec args (writeModifierTokens args w)
  obtain ⟨b3, l3⟩ := writeExtends_spec args (writeTypeParams args (writeModifierTokens args w))
  obtain ⟨b4, l4⟩ := writeImplements_spec args
    (writeExtends args (writeTypeParams args (writeModifierTokens args w)))
  refine ⟨?_, ?_⟩
  · show (writeImplements args
        (writeExtends args (writeTypeParams args (writeModifierTokens args w)))).buffer = _
    rw [b4, b3, b2, b1]
    simp [classDeclRender, String.append_assoc]
  · show (writeImplements args
        (writeExtends args (writeTypeParams args (writeModifierTokens args w)))).indentLevel = _
    rw [l4, l3, l2, l1]

theorem writeJavadoc_spec (jd : Option String) (w : Writer) :
    (writeJavadoc jd w).buffer = w.buffer ++ javadocRender w.indentLevel jd
    ∧ (writeJavadoc jd w).indentLevel = w.indentLevel := by
  cases jd with
  | none => exact ⟨by simp [writeJavadoc, javadocRender], rfl⟩
  | some t =>
    by_cases ht : t = ""
    · refine ⟨?_, ?_⟩ <;> simp [writeJavadoc, javadocRender, ht]
    · obtain ⟨hb2, hl2⟩ := foldl_buffer_spec
        (fun w line => w.writeLine (some (" * " ++ line)))
        (fun line => lineChunk w.indentLevel (" * " ++ line)) w.indentLevel
        (fun w' a h' => ⟨by rw [writeLine_some_buffer, h'], by rw [writeLine_indentLevel, h']⟩)
        (splitNl t) (w.writeLine (some "/**"))
        (writeLine_indentLevel w (some "/**"))
      refine ⟨?_, ?_⟩
      · simp only [writeJavadoc, javadocRender, if_neg ht]
        rw [writeLine_some_buffer, hl2, hb2, writeLine_some_buffer]
        simp [String.append_assoc]
      · simp only [writeJavadoc, if_neg ht]
        rw [writeLine_indentLevel, hl2]

theorem writeAnnotationList_spec (anns : List AnnotationM) (w : Writer) :
    (writeAnnotationList anns w).buffer = w.buffer ++ annotationsRender anns
    ∧ (writeAnnotationList anns w).indentLevel = w.indentLevel := by
  have h := foldl_buffer_flat (fun w (a : AnnotationM) => (a.write w).writeLine none)
    (fun a => a.text ++ "\n")
    (fun w' a =>
      ⟨by
        show ((a.write w').writeLine none).buffer = _
        rw [writeLine_none_buffer]
        show (w'.buffer ++ a.text) ++ "\n" = _
        rw [String.append_assoc],
       rfl⟩)
    anns w
  exact h

theorem dedent_indentLevel_pos (w : Writer) (h : 0 < w.indentLevel) :
    w.dedent.indentLevel = w.indentLevel - 1 := by
  unfold Writer.dedent
  rw [if_pos h]

theorem writeCtorJavadocLines_spec (jd : Option String) (w : Writer) :
    (writeCtorJavadocLines jd w).buffer = w.buffer ++ ctorJavadocLinesRender w.indentLevel jd
    ∧ (writeCtorJavadocLines jd w).indentLevel = w.indentLevel := by
  cases jd with
  | none => exact ⟨by simp [writeCtorJavadocLines, ctorJavadocLinesRender], rfl⟩
  | some t =>
    by_cases ht : t = ""
    · refine ⟨?_, ?_⟩ <;> simp [writeCtorJavadocLines, ctorJavadocLinesRender, ht]
    · obtain ⟨hb, hl⟩ := foldl_buffer_spec
        (fun w line => w.writeLine (some (" * " ++ line)))
        (fun line => lineChunk w.indentLevel (" * " ++ line)) w.indentLevel
        (fun w' a h' => ⟨by rw [writeLine_some_buffer, h'], by rw [writeLine_indentLevel, h']⟩)
        (splitNl t) w rfl
      refine ⟨?_, ?_⟩
      · simp only [writeCtorJavadocLines, ctorJavadocLinesRender, if_neg ht]
        exact hb
      · simp only [writeCtorJavadocLines, if_neg ht]
        exact hl

theorem writeParamDoc_spec (w : Writer) (p : ParameterM) :
    (writeParamDoc w p).buffer = w.buffer ++ paramDocText w.indentLevel p
    ∧ (writeParamDoc w p).indentLevel = w.indentLevel := by
  cases hd : p.docs with
  | none => exact ⟨by simp [writeParamDoc, paramDocText, hd], by simp [writeParamDoc, hd]⟩
  | some d =>
    by_cases hde : d = ""
    · refine ⟨?_, ?_⟩ <;> simp [writeParamDoc, paramDocText, hd, hde]
    · refine ⟨?_, ?_⟩
      · simp only [writeParamDoc, paramDocText, hd, if_neg hde]
        rw [writeLine_some_buffer]
      · simp only [writeParamDoc, hd, if_neg hde]
        rw [writeLine_indentLevel]

theorem writeCtorDoc_spec (k : CtorM) (w : Writer) :
    (writeCtorDoc k w).buffer = w.buffer ++ ctorDocRender w.indentLevel k
    ∧ (writeCtorDoc k w).indentLevel = w.indentLevel := by
  by_cases hd : ctorHasDocs k = true
  · obtain ⟨jb, jl⟩ := writeCtorJavadocLines_spec k.javadoc (w.writeLine (some "/**"))
    have hl2 : (writeCtorJavadocLines k.javadoc (w.writeLine (some "/**"))).indentLevel
        = w.indentLevel := by
      rw [jl, writeLine_indentLevel]
    obtain ⟨pb, pl⟩ := foldl_buffer_spec writeParamDoc (paramDocText w.indentLevel) w.indentLevel
      (fun w' p h' =>
        ⟨by rw [(writeParamDoc_spec w' p).1, h'], by rw [(writeParamDoc_spec w' p).2, h']⟩)
      k.parameters (writeCtorJavadocLines k.javadoc (w.writeLine (some "/**"))) hl2
    refine ⟨?_, ?_⟩
    · simp only [writeCtorDoc, ctorDocRender, if_pos hd]
      rw [writeLine_some_buffer, pl, pb, jb, writeLine_indentLevel, writeLine_some_buffer]
      simp [String.append_assoc]
    · simp only [writeCtorDoc, if_pos hd]
      rw [writeLine_indentLevel, pl]
  · refine ⟨?_, ?_⟩ <;> simp [writeCtorDoc, ctorDocRender, hd]

theorem writeCtorAnnotationList_spec (k : CtorM) (w : Writer) :
    (writeCtorAnnotationList k w).buffer = w.buffer ++ ctorAnnotationsRender k
    ∧ (writeCtorAnnotationList k w).indentLevel = w.indentLevel := by
  cases ha : k.annotations with
  | none => exact ⟨by simp [writeCtorAnnotationList, ctorAnnotationsRender, ha], by
      simp [writeCtorAnnotationList, ha]⟩
  | some anns =>
    refine ⟨?_, ?_⟩
    · simp only [writeCtorAnnotationList, ctorAnnotationsRender, ha]
      exact (writeAnnotationList_spec anns w).1
    · simp only [writeCtorAnnotationList, ha]
      exact (writeAnnotationList_spec anns w).2

theorem writeCtorParams_spec (k : CtorM) (w : Writer) :
    (writeCtorParams k w).buffer = w.buffer ++ paramsRender k.parameters
    ∧ (writeCtorParams k w).indentLevel = w.indentLevel := by
  have h := foldl_buffer_flat
    (fun w p =>
      let w2 := p.2.write w
      if p.1 < k.parameters.length - 1 then w2.write ", " else w2)
    (fun p => p.2.text ++ (if p.1 < k.parameters.length - 1 then ", " else ""))
    (fun w' p => by
      by_cases hp : p.1 < k.parameters.length - 1
      · refine ⟨?_, ?_⟩ <;>
          simp [hp, ParameterM.write, write_buffer, write_indentLevel, String.append_assoc]
      · refine ⟨?_, ?_⟩ <;>
          simp [hp, ParameterM.write, write_buffer, write_indentLevel])
    k.parameters.enum w
  exact h

theorem writeCtorThrows_spec (k : CtorM) (w : Writer) :
    (writeCtorThrows k w).buffer = w.buffer ++ throwsRender k.throws
    ∧ (writeCtorThrows k w).indentLevel = w.indentLevel := by
  cases ht : k.throws with
  | none => exact ⟨by simp [writeCtorThrows, throwsRender, ht], by simp [writeCtorThrows, ht]⟩
  | some ts =>
    by_cases hl : 0 < ts.length
    · have hfold := foldl_buffer_flat
        (fun w p =>
          let w2 := (w.addReference p.2).write p.2.name
          if p.1 < ts.length - 1 then w2.write ", " else w2)
        (fun p => p.2.name ++ (if p.1 < ts.length - 1 then ", " else ""))
        (fun w' p => by
          by_cases hp : p.1 < ts.length - 1
          · refine ⟨?_, ?_⟩ <;>
              simp [hp, write_buffer, write_indentLevel, addReference_buffer,
                addReference_indentLevel, String.append_assoc]
          · refine ⟨?_, ?_⟩ <;>
              simp [hp, write_buffer, write_indentLevel, addReference_buffer,
                addReference_indentLevel])
        ts.enum (w.write " throws ")
      obtain ⟨hb, hlev⟩ := hfold
      refine ⟨?_, ?_⟩
      · simp only [writeCtorThrows, throwsRender, ht, if_pos hl]
        rw [hb, write_buffer]
        simp [String.append_assoc]
      · simp only [writeCtorThrows, ht, if_pos hl]
        rw [hlev, write_indentLevel]
    · refine ⟨?_, ?_⟩ <;> simp [writeCtorThrows, throwsRender, ht, hl]

theorem writeCtorDelegation_spec (k : CtorM) (w : Writer) :
    (writeCtorDelegation k w).buffer = w.buffer ++ delegationRender w.indentLevel k
    ∧ (writeCtorDelegation k w).indentLevel = w.indentLevel := by
  cases hs : k.superCall with
  | some sc =>
    refine ⟨?_, ?_⟩
    · simp only [writeCtorDelegation, delegationRender, hs]
      rw [writeLine_some_buffer]
      show ((w.buffer ++ "super(") ++ sc.code) ++ lineChunk w.indentLevel ");" = _
      simp [String.append_assoc]
    · simp only [writeCtorDelegation, hs]
      rw [writeLine_indentLevel]
      rfl
  | none =>
    cases hth : k.thisCall with
    | some tc =>
      refine ⟨?_, ?_⟩
      · simp only [writeCtorDelegation, delegationRender, hs, hth]
        rw [writeLine_some_buffer]
        show ((w.buffer ++ "this(") ++ tc.code) ++ lineChunk w.indentLevel ");" = _
        simp [String.append_assoc]
      · simp only [writeCtorDelegation, hs, hth]
        rw [writeLine_indentLevel]
        rfl
    | none =>
      exact ⟨by simp [writeCtorDelegation, delegationRender, hs, hth], by
        simp [writeCtorDelegation, hs, hth]⟩

theorem writeCtorBody_spec (k : CtorM) (w : Writer) :
    (writeCtorBody k w).buffer = w.buffer ++ ctorBodyRender k
    ∧ (writeCtorBody k w).indentLevel = w.indentLevel := by
  cases hb : k.body with
  | none => exact ⟨by simp [writeCtorBody, ctorBodyRender, hb], by simp [writeCtorBody, hb]⟩
  | some b =>
    exact ⟨by simp [writeCtorBody, ctorBodyRender, hb, CodeBlockM.write, write_buffer], by
      simp [writeCtorBody, hb, CodeBlockM.write, write_indentLevel]⟩

theorem writeConstructor_spec (className : String) (k : CtorM) (w : Writer)
    (h0 : 0 ≤ w.indentLevel) :
    (writeConstructor className w k).buffer
      = w.buffer ++ ctorRender className w.indentLevel k
    ∧ (writeConstructor className w k).indentLevel = w.indentLevel := by
  obtain ⟨b1, l1⟩ := writeCtorDoc_spec k w
  obtain ⟨b2, l2⟩ := writeCtorAnnotationList_spec k (writeCtorDoc k w)
  set W3 := (writeCtorAnnotationList k (writeCtorDoc k w)).write
    (k.access ++ " " ++ className ++ "(") with hW3
  obtain ⟨b4, l4⟩ := writeCtorParams_spec k W3
  set W5 := (writeCtorParams k W3).write ")" with hW5
  obtain ⟨b6, l6⟩ := writeCtorThrows_spec k W5
  set W7 := ((writeCtorThrows k W5).writeLine (some " \x7b")).indent with hW7
  obtain ⟨b8, l8⟩ := writeCtorDelegation_spec k W7
  obtain ⟨b9, l9⟩ := writeCtorBody_spec k (writeCtorDelegation k W7)
  have hl3 : W3.indentLevel = w.indentLevel := by
    rw [hW3, write_indentLevel, l2, l1]
  have hl5 : W5.indentLevel = w.indentLevel := by
    rw [hW5, write_indentLevel, l4, hl3]
  have hl7 : W7.indentLevel = w.indentLevel + 1 := by
    rw [hW7, indent_indentLevel, writeLine_indentLevel, l6, hl5]
  have hl9 : (writeCtorBody k (writeCtorDelegation k W7)).indentLevel = w.indentLevel + 1 := by
    rw [l9, l8, hl7]
  have hpos : 0 < (writeCtorBody k (writeCtorDelegation k W7)).indentLevel := by
    rw [hl9]
    omega
  refine ⟨?_, ?_⟩
  · show ((writeCtorBody k (writeCtorDelegation k W7)).dedent.writeLine (some "\x7d")).buffer = _
    rw [writeLine_some_buffer, dedent_buffer, dedent_indentLevel_pos _ hpos, hl9]
    rw [b9, b8, hl7]
    rw [hW7]
    rw [indent_buffer, writeLine_some_buffer, l6, hl5, b6]
    rw [hW5, write_buffer, b4]
    rw [hW3, write_buffer, b2, b1]
    have hsub : w.indentLevel + 1 - 1 = w.indentLevel := by omega
    rw [hsub]
    simp [ctorRender, String.append_assoc]
  · show ((writeCtorBody k (writeCtorDelegation k W7)).dedent.writeLine (some "\x7d")).indentLevel = _
    rw [writeLine_indentLevel, dedent_indentLevel_pos _ hpos, hl9]
    omega

theorem linesWrite_spec (ls : List String) (w : Writer) :
    (ls.foldl (fun w l => w.writeLine (some l)) w).buffer
      = w.buffer ++ linesRender w.indentLevel ls
    ∧ (ls.foldl (fun w l => w.writeLine (some l)) w).indentLevel = w.indentLevel := by
  have h := foldl_buffer_spec (fun w l => w.writeLine (some l)) (lineChunk w.indentLevel)
    w.indentLevel
    (fun w' a h' => ⟨by rw [writeLine_some_buffer, h'], by rw [writeLine_indentLevel, h']⟩)
    ls w rfl
  exact h

theorem methodWrite_spec (m : MethodM) (w : Writer) :
    (m.write w).buffer = w.buffer ++ linesRender w.indentLevel m.lines
    ∧ (m.write w).indentLevel = w.indentLevel :=
  linesWrite_spec m.lines w

theorem interfaceWrite_spec (x : InterfaceM) (w : Writer) :
    (x.write w).buffer = w.buffer ++ linesRender w.indentLevel x.lines
    ∧ (x.write w).indentLevel = w.indentLevel :=
  linesWrite_spec x.lines w

theorem enumWrite_spec (x : EnumM) (w : Writer) :
    (x.write w).buffer = w.buffer ++ linesRender w.indentLevel x.lines
    ∧ (x.write w).indentLevel = w.indentLevel :=
  linesWrite_spec x.lines w

mutual

theorem jclassWrite_spec : ∀ (c : JClass) (w : Writer), 0 ≤ w.indentLevel →
    (JClass.write c w).buffer = w.buffer ++ classRender c w.indentLevel
    ∧ (JClass.write c w).indentLevel = w.indentLevel
  | JClass.mk args fs ks ms ns is es, w, h0 => by
    obtain ⟨b1, l1⟩ := writeJavadoc_spec args.javadoc w
    obtain ⟨b2, l2⟩ := writeAnnotationList_spec args.annotations (writeJavadoc args.javadoc w)
    obtain ⟨b3, l3⟩ := writeClassDeclLine_spec args
      (writeAnnotationList args.annotations (writeJavadoc args.javadoc w))
    set W4 := ((writeClassDeclLine args
      (writeAnnotationList args.annotations (writeJavadoc args.javadoc w))).writeLine
        (some " \x7b")).indent with hW4
    have hl4 : W4.indentLevel = w.indentLevel + 1 := by
      rw [hW4, indent_indentLevel, writeLine_indentLevel, l3, l2, l1]
    obtain ⟨b5, l5⟩ := foldl_buffer_spec
      (fun w f => ((f.write w).writeLine none).newLine)
      (fun f => f.text ++ "\n\n") (w.indentLevel + 1)
      (fun w' f h' =>
        ⟨by
          show (((f.write w').writeLine none).newLine).buffer = _
          rw [newLine_buffer, writeLine_none_buffer]
          show (((w'.buffer ++ f.text) ++ "\n") ++ "\n") = _
          rw [String.append_assoc, String.append_assoc]
          rfl,
         by
          show (((f.write w').writeLine none).newLine).indentLevel = _
          rw [newLine_indentLevel, writeLine_indentLevel]
          exact h'⟩)
      fs W4 hl4
    obtain ⟨b6, l6⟩ := foldl_buffer_spec
      (fun w k => (writeConstructor args.name w k).newLine)
      (fun k => ctorRender args.name (w.indentLevel + 1) k ++ "\n") (w.indentLevel + 1)
      (fun w' k h' => by
        obtain ⟨cb, cl⟩ := writeConstructor_spec args.name k w' (by rw [h']; omega)
        constructor
        · show ((writeConstructor args.name w' k).newLine).buffer = _
          rw [newLine_buffer, cb, h', String.append_assoc]
        · show ((writeConstructor args.name w' k).newLine).indentLevel = _
          rw [newLine_indentLevel, cl, h'])
      ks (fs.foldl (fun w f => ((f.write w).writeLine none).newLine) W4) l5
    obtain ⟨b7, l7⟩ := foldl_buffer_spec
      (fun w m => (m.write w).newLine)
      (fun m => linesRender (w.indentLevel + 1) m.lines ++ "\n") (w.indentLevel + 1)
      (fun w' m h' => by
        obtain ⟨mb, ml⟩ := methodWrite_spec m w'
        constructor
        · show ((m.write w').newLine).buffer = _
          rw [newLine_buffer, mb, h', String.append_assoc]
        · show ((m.write w').newLine).indentLevel = _
          rw [newLine_indentLevel, ml, h'])
      ms (ks.foldl (fun w k => (writeConstructor args.name w k).newLine)
        (fs.foldl (fun w f => ((f.write w).writeLine none).newLine) W4)) l6
    obtain ⟨b8, l8⟩ := jclassWriteList_spec ns
      (ms.foldl (fun w m => (m.write w).newLine)
        (ks.foldl (fun w k => (writeConstructor args.name w k).newLine)
          (fs.foldl (fun w f => ((f.write w).writeLine none).newLine) W4)))
      (by rw [l7]; omega)
    obtain ⟨b9, l9⟩ := foldl_buffer_spec
      (fun w x => (x.write w).newLine)
      (fun x => linesRender (w.indentLevel + 1) x.lines ++ "\n") (w.indentLevel + 1)
      (fun w' x h' => by
        obtain ⟨xb, xl⟩ := interfaceWrite_spec x w'
        constructor
        · show ((x.write w').newLine).buffer = _
          rw [newLine_buffer, xb, h', String.append_assoc]
        · show ((x.write w').newLine).indentLevel = _
          rw [newLine_indentLevel, xl, h'])
      is (JClass.writeList ns
        (ms.foldl (fun w m => (m.write w).newLine)
          (ks.foldl (fun w k => (writeConstructor args.name w k).newLine)
            (fs.foldl (fun w f => ((f.write w).writeLine none).newLine) W4))))
      (by rw [l8, l7])
    obtain ⟨b10, l10⟩ := foldl_buffer_spec
      (fun w x => (x.write w).newLine)
      (fun x => linesRender (w.indentLevel + 1) x.lines ++ "\n") (w.indentLevel + 1)
      (fun w' x h' => by
        obtain ⟨xb, xl⟩ := enumWrite_spec x w'
        constructor
        · show ((x.write w').newLine).buffer = _
          rw [newLine_buffer, xb, h', String.append_assoc]
        · show ((x.write w').newLine).indentLevel = _
          rw [newLine_indentLevel, xl, h'])
      es (is.foldl (fun w x => (x.write w).newLine)
        (JClass.writeList ns
          (ms.foldl (fun w m => (m.write w).newLine)
            (ks.foldl (fun w k => (writeConstructor args.name w k).newLine)
              (fs.foldl (fun w f => ((f.write w).writeLine none).newLine) W4)))))
      l9
    have hpos : 0 < (es.foldl (fun w x => (x.write w).newLine)
        (is.foldl (fun w x => (x.write w).newLine)
          (JClass.writeList ns
            (ms.foldl (fun w m => (m.write w).newLine)
              (ks.foldl (fun w k => (writeConstructor args.name w k).newLine)
                (fs.foldl (fun w f => ((f.write w).writeLine none).newLine) W4)))))).indentLevel := by
      rw [l10]
      omega
    refine ⟨?_, ?_⟩
    · show ((es.foldl (fun w x => (x.write w).newLine)
        (is.foldl (fun w x => (x.write w).newLine)
          (JClass.writeList ns
            (ms.foldl (fun w m => (m.write w).newLine)
              (ks.foldl (fun w k => (writeConstructor args.name w k).newLine)
                (fs.foldl (fun w f => ((f.write w).writeLine none).newLine)
                  W4)))))).dedent.writeLine (some "\x7d")).buffer = _
      rw [writeLine_some_buffer, dedent_buffer, dedent_indentLevel_pos _ hpos, l10]
      rw [b10, b9, b8, l7, b7, b6, b5]
      rw [hW4, indent_buffer, writeLine_some_buffer, l3, l2, l1, b3, b2, b1]
      have hsub : w.indentLevel + 1 - 1 = w.indentLevel := by omega
      rw [hsub]
      show _ = w.buffer ++ classRender (JClass.mk args fs ks ms ns is es) w.indentLevel
      simp only [classRender]
      simp [String.append_assoc]
    · show ((es.foldl (fun w x => (x.write w).newLine)
        (is.foldl (fun w x => (x.write w).newLine)
          (JClass.writeList ns
            (ms.foldl (fun w m => (m.write w).newLine)
              (ks.foldl (fun w k => (writeConstructor args.name w k).newLine)
                (fs.foldl (fun w f => ((f.write w).writeLine none).newLine)
                  W4)))))).dedent.writeLine (some "\x7d")).indentLevel = _
      rw [writeLine_indentLevel, dedent_indentLevel_pos _ hpos, l10]
      omega

theorem jclassWriteList_spec : ∀ (l : List JClass) (w : Writer), 0 ≤ w.indentLevel →
    (JClass.writeList l w).buffer = w.buffer ++ classListRender l w.indentLevel
    ∧ (JClass.writeList l w).indentLevel = w.indentLevel
  | [], w, _ => ⟨by simp [JClass.writeList, classListRender], rfl⟩
  | c :: cs, w, h0 => by
    obtain ⟨cb, cl⟩ := jclassWrite_spec c w h0
    obtain ⟨lb, ll⟩ := jclassWriteList_spec cs ((JClass.write c w).newLine)
      (by rw [newLine_indentLevel, cl]; exact h0)
    refine ⟨?_, ?_⟩
    · show (JClass.writeList cs ((JClass.write c w).newLine)).buffer = _
      rw [lb, newLine_indentLevel, cl, newLine_buffer, cb]
      show _ = w.buffer ++ classListRender (c :: cs) w.indentLevel
      simp only [classListRender]
      simp [String.append_assoc]
    · show (JClass.writeList cs ((JClass.write c w).newLine)).indentLevel = _
      rw [ll, newLine_indentLevel, cl]

end

theorem classListRender_eq_join (l : List JClass) (i : Int) :
    classListRender l i = String.join (l.map (fun n => classRender n i ++ "\n")) := by
  induction l with
  | nil => simp [classListRender, String.join]
  | cons c cs ih =>
    simp only [classListRender, List.map_cons, string_join_cons, ih]

theorem append_lineChunk_ends_nl (s : String) (i : Int) (u : String) :
    ∃ t, s ++ lineChunk i u = t ++ "\n" :=
  ⟨s ++ (indentation i ++ u), by simp [lineChunk, String.append_assoc]⟩

theorem ctorRender_ends_nl (n : String) (i : Int) (k : CtorM) :
    ∃ t, ctorRender n i k = t ++ "\n" := by
  simp only [ctorRender]
  exact append_lineChunk_ends_nl _ _ _

theorem classRender_ends_nl (c : JClass) (i : Int) :
    ∃ t, classRender c i = t ++ "\n" := by
  cases c
  simp only [classRender]
  exact append_lineChunk_ends_nl _ _ _

theorem linesRender_ends_nl (i : Int) :
    ∀ ls : List String, ls ≠ [] → ∃ t, linesRender i ls = t ++ "\n"
  | [], h => absurd rfl h
  | [x], _ =>
    ⟨indentation i ++ x, by
      show String.join [lineChunk i x] = _
      rw [string_join_cons]
      simp [lineChunk, String.join]⟩
  | x :: y :: ys, _ => by
    obtain ⟨t, ht⟩ := linesRender_ends_nl i (y :: ys) (by simp)
    refine ⟨lineChunk i x ++ t, ?_⟩
    show String.join (lineChunk i x :: (y :: ys).map (lineChunk i)) = _
    rw [string_join_cons]
    show lineChunk i x ++ linesRender i (y :: ys) = _
    rw [ht, String.append_assoc]

theorem ends_nl_append_nl {s t : String} (h : s = t ++ "\n") : s ++ "\n" = t ++ "\n\n" := by
  rw [h, String.append_assoc]
  rfl

/-- C9: `Class.write` emits the member sections in the fixed order fields,
constructors, methods, nested classes, nested interfaces, nested enums;
within each section members appear in insertion order (the `map` over the
section's list); and every member's chunk ends with a blank line, so a blank
line separates members within and between sections.  (Methods, nested
interfaces and nested enums must render at least one line for their blank
separator to exist.) -/
theorem class_write_sections (c : JClass) (w : Writer) (h0 : 0 ≤ w.indentLevel)
    (hm : ∀ m ∈ c.methods, m.lines ≠ [])
    (hi : ∀ x ∈ c.nestedInterfaces, x.lines ≠ [])
    (he : ∀ x ∈ c.nestedEnums, x.lines ≠ []) :
    (JClass.write c w).buffer
      = w.buffer ++ classHeader c w.indentLevel
        ++ String.join (c.fields.map (fun f => f.text ++ "\n\n"))
        ++ String.join (c.constructors.map
            (fun k => ctorRender c.args.name (w.indentLevel + 1) k ++ "\n"))
        ++ String.join (c.methods.map
            (fun m => linesRender (w.indentLevel + 1) m.lines ++ "\n"))
        ++ String.join (c.nestedClasses.map
            (fun n => classRender n (w.indentLevel + 1) ++ "\n"))
        ++ String.join (c.nestedInterfaces.map
            (fun x => linesRender (w.indentLevel + 1) x.lines ++ "\n"))
        ++ String.join (c.nestedEnums.map
            (fun x => linesRender (w.indentLevel + 1) x.lines ++ "\n"))
        ++ lineChunk w.indentLevel "\x7d"
    ∧ (∀ f ∈ c.fields, ∃ t, f.text ++ "\n\n" = t ++ "\n\n")
    ∧ (∀ k ∈ c.constructors,
        ∃ t, ctorRender c.args.name (w.indentLevel + 1) k ++ "\n" = t ++ "\n\n")
    ∧ (∀ m ∈ c.methods,
        ∃ t, linesRender (w.indentLevel + 1) m.lines ++ "\n" = t ++ "\n\n")
    ∧ (∀ n ∈ c.nestedClasses,
        ∃ t, classRender n (w.indentLevel + 1) ++ "\n" = t ++ "\n\n")
    ∧ (∀ x ∈ c.nestedInterfaces,
        ∃ t, linesRender (w.indentLevel + 1) x.lines ++ "\n" = t ++ "\n\n")
    ∧ (∀ x ∈ c.nestedEnums,
        ∃ t, linesRender (w.indentLevel + 1) x.lines ++ "\n" = t ++ "\n\n") := by
  obtain ⟨hb, _⟩ := jclassWrite_spec c w h0
  refine ⟨?_, ?_, ?_, ?_, ?_, ?_, ?_⟩
  · rw [hb]
    cases c with
    | mk args fs ks ms ns is es =>
      simp only [classRender, classHeader, JClass.args, JClass.fields, JClass.constructors,
        JClass.methods, JClass.nestedClasses, JClass.nestedInterfaces, JClass.nestedEnums,
        classListRender_eq_join]
      simp [String.append_assoc]
  · exact fun f _ => ⟨f.text, rfl⟩
  · intro k _
    obtain ⟨t, htc⟩ := ctorRender_ends_nl c.args.name (w.indentLevel + 1) k
    exact ⟨t, ends_nl_append_nl htc⟩
  · intro m hmem
    obtain ⟨t, htc⟩ := linesRender_ends_nl (w.indentLevel + 1) m.lines (hm m hmem)
    exact ⟨t, ends_nl_append_nl htc⟩
  · intro n _
    obtain ⟨t, htc⟩ := classRender_ends_nl n (w.indentLevel + 1)
    exact ⟨t, ends_nl_append_nl htc⟩
  · intro x hmem
    obtain ⟨t, htc⟩ := linesRender_ends_nl (w.indentLevel + 1) x.lines (hi x hmem)
    exact ⟨t, ends_nl_append_nl htc⟩
  · intro x hmem
    obtain ⟨t, htc⟩ := linesRender_ends_nl (w.indentLevel + 1) x.lines (he x hmem)
    exact ⟨t, ends_nl_append_nl htc⟩

/-- A concrete class with one field, one constructor and one method. -/
def classExample : JClass :=
  JClass.mk
    { name := "Person", packageName := "com.example", access := "public",
      abstract_ := false, final_ := false, static_ := false,
      extends_ := none, implements_ := [], isNestedClass := false,
      annotations := [], javadoc := none, typeParameters := [] }
    [⟨"    private long id;"⟩]
    [{ body := some ⟨"this.id = id;"⟩, parameters := [⟨"id", none, "long id"⟩],
       access := "public", javadoc := none, annotations := none,
       superCall := none, thisCall := none, throws := none }]
    [⟨["public long getId() \x7b", "    return id;", "\x7d"]⟩]
    [] [] []

/-- Witness for C9 at a concrete class and writer. -/
theorem class_write_sections_witness :
    0 ≤ (Writer.create "com.example" false).indentLevel
    ∧ (∀ m ∈ classExample.methods, m.lines ≠ [])
    ∧ (∀ x ∈ classExample.nestedInterfaces, x.lines ≠ [])
    ∧ (∀ x ∈ classExample.nestedEnums, x.lines ≠ [])
    ∧ (JClass.write classExample (Writer.create "com.example" false)).buffer
        = (Writer.create "com.example" false).buffer
          ++ classHeader classExample (Writer.create "com.example" false).indentLevel
          ++ String.join (classExample.fields.map (fun f => f.text ++ "\n\n"))
          ++ String.join (classExample.constructors.map
              (fun k => ctorRender classExample.args.name
                ((Writer.create "com.example" false).indentLevel + 1) k ++ "\n"))
          ++ String.join (classExample.methods.map
              (fun m => linesRender
                ((Writer.create "com.example" false).indentLevel + 1) m.lines ++ "\n"))
          ++ String.join (classExample.nestedClasses.map
              (fun n => classRender n
                ((Writer.create "com.example" false).indentLevel + 1) ++ "\n"))
          ++ String.join (classExample.nestedInterfaces.map
              (fun x => linesRender
                ((Writer.create "com.example" false).indentLevel + 1) x.lines ++ "\n"))
          ++ String.join (classExample.nestedEnums.map
              (fun x => linesRender
                ((Writer.create "com.example" false).indentLevel + 1) x.lines ++ "\n"))
          ++ lineChunk (Writer.create "com.example" false).indentLevel "\x7d" :=
  ⟨by decide, by decide, by decide, by decide,
   (class_write_sections classExample (Writer.create "com.example" false)
      (by decide) (by decide) (by decide) (by decide)).1⟩

/-- C10: when both a superCall and a thisCall are supplied, the emitted
constructor is identical to the one emitted with the thisCall removed (the
thisCall block is not emitted at all), and the constructor body opens with
exactly one delegation call, `super(...)`. -/
theorem super_call_takes_precedence (n : String) (w : Writer) (k : CtorM)
    (sc tc : CodeBlockM) (h0 : 0 ≤ w.indentLevel)
    (hs : k.superCall = some sc) (ht : k.thisCall = some tc) :
    writeConstructor n w k = writeConstructor n w { k with thisCall := none }
    ∧ (writeConstructor n w k).buffer
        = w.buffer
          ++ (ctorDocRender w.indentLevel k ++ ctorAnnotationsRender k
              ++ (k.access ++ " " ++ n ++ "(") ++ paramsRender k.parameters ++ ")"
              ++ throwsRender k.throws ++ lineChunk w.indentLevel " \x7b")
          ++ ("super(" ++ sc.code ++ lineChunk (w.indentLevel + 1) ");")
          ++ (ctorBodyRender k ++ lineChunk w.indentLevel "\x7d") := by
  constructor
  · have hdel : writeCtorDelegation k = writeCtorDelegation { k with thisCall := none } := by
      funext w'
      simp only [writeCtorDelegation, hs]
    simp only [writeConstructor]
    rw [hdel]
    rfl
  · obtain ⟨hb, _⟩ := writeConstructor_spec n k w h0
    rw [hb]
    simp only [ctorRender, delegationRender, hs]
    simp [String.append_assoc]

/-- A concrete constructor record supplying both delegation hooks. -/
def ctorExample : CtorM :=
  { body := some ⟨"this.id = id;"⟩, parameters := [], access := "public",
    javadoc := none, annotations := none,
    superCall := some ⟨"name"⟩, thisCall := some ⟨"0"⟩, throws := none }

/-- Witness for C10 at a concrete constructor and writer. -/
theorem super_call_takes_precedence_witness :
    0 ≤ (Writer.create "com.example" false).indentLevel
    ∧ ctorExample.superCall = some ⟨"name"⟩
    ∧ ctorExample.thisCall = some ⟨"0"⟩
    ∧ writeConstructor "Person" (Writer.create "com.example" false) ctorExample
        = writeConstructor "Person" (Writer.create "com.example" false)
            { ctorExample with thisCall := none } :=
  ⟨by decide, rfl, rfl,
   (super_call_takes_precedence "Person" (Writer.create "com.example" false) ctorExample
      ⟨"name"⟩ ⟨"0"⟩ (by decide) rfl rfl).1⟩

end JavaAst
